import Mathlib

/-!
# Verification of the living-archive multi-provider document-analysis core

Shallow embedding of the document-analysis dispatch and chunk-merge engine
(`src/doc_analyze.py`), the retry decorator (`src/config.py`) and the
Pydantic data models (`src/models.py`), together with proofs of the claims
about them.

Conventions of the embedding:
* Python floats that only ever get compared (`date_confidence`, retry
  delays) are modelled as `ℚ`; Python ints as `Int` (arbitrary precision);
  Python strings as `String`.
* Raised exceptions are modelled by the `PyExc` inductive and fallible
  code returns `Except PyExc α`.
* Wall-clock effects (`datetime.now`, `time.sleep`) are made explicit:
  merge takes the timestamp as an argument, and the retry wrapper records
  the delays it would sleep instead of sleeping.
-/

set_option autoImplicit false
set_option maxRecDepth 8000

namespace LivingArchive

/-- Python exception values that flow through the analysis core.
Each constructor is one exception class the embedded code can raise or
catch; the `String` payload is the exception message. -/
inductive PyExc : Type where
  /-- `httpx.ConnectError` -/
  | connectError (msg : String)
  /-- `httpx.TimeoutException` -/
  | timeoutException (msg : String)
  /-- `anthropic.RateLimitError` -/
  | anthropicRateLimitError (msg : String)
  /-- `anthropic.APIConnectionError` -/
  | anthropicAPIConnectionError (msg : String)
  /-- `httpx.HTTPStatusError` with its response status code -/
  | httpStatusError (status : Nat) (msg : String)
  /-- `CliRateLimitError`, raised by the CLI provider adapters on a
  rate-limit signal in stderr -/
  | cliRateLimitError (msg : String)
  /-- `ValueError` (e.g. unknown provider name in `get_provider`) -/
  | valueError (msg : String)
  /-- `RuntimeError` (generic CLI transport failure) -/
  | runtimeError (msg : String)
  /-- `IndexError` (e.g. `analyses[0]` on an empty list) -/
  | indexError (msg : String)
  /-- `TypeError` (only reachable from `raise None` when the retry loop
  body never ran, i.e. `max_attempts = 0`) -/
  | typeError (msg : String)
  deriving DecidableEq

/-- Modelled from the spec: the class definition of `CliRateLimitError` is
imported by `doc_analyze.py` from `config` but is absent from the provided
`config.py`, so its base class (which decides whether the lazily built
retryable-exception tuple of `config.retry` catches it) is missing from the
sources.  The spec states that the retried set includes "rate-limit
signals (including the adapter-raised RateLimited failure)" and that
RateLimited is "retried by the Retry Orchestrator with backoff", so the
missing definition is modelled as a member of the retryable classification. -/
def cliRateLimitErrorIsRetryable : Bool := true

/-- `config._get_retryable_exceptions` membership: `isinstance(exc, retryable)`
for the tuple `(httpx.ConnectError, httpx.TimeoutException,
anthropic.RateLimitError, anthropic.APIConnectionError)`.
The `cliRateLimitError` line delegates to the spec-modelled
`cliRateLimitErrorIsRetryable` (see its doc comment). -/
def isRetryableException : PyExc → Bool
  | .connectError _ => true
  | .timeoutException _ => true
  | .anthropicRateLimitError _ => true
  | .anthropicAPIConnectionError _ => true
  | .cliRateLimitError _ => cliRateLimitErrorIsRetryable
  | _ => false

/-- `config._is_retryable_status`: an `httpx.HTTPStatusError` whose response
status code is one of 429/500/502/503. -/
def isRetryableStatus : PyExc → Bool
  | .httpStatusError s _ => s == 429 || s == 500 || s == 502 || s == 503
  | _ => false

/-- The combined classification applied by the two `except` clauses of
`config.retry`: caught by the retryable tuple, or retryable by HTTP status. -/
def retryClassified (e : PyExc) : Bool :=
  isRetryableException e || isRetryableStatus e

deriving instance DecidableEq for Except

/-- Observable outcome of one `config.retry`-wrapped call: the value
returned or exception finally raised, how many times the wrapped function
was invoked, and the sequence of backoff delays slept (in seconds). -/
structure RetryTrace (α : Type) where
  outcome : Except PyExc α
  calls : Nat
  delays : List ℚ
  deriving DecidableEq

/-- The attempt loop of `config.retry`'s `wrapper`.  `fn attempt` is the
outcome of invoking the wrapped function on the given 1-based attempt
number; `remaining` counts the loop iterations still to run
(`max_attempts - attempt + 1`); `last` is the `last_exc` variable.

Per iteration: a normal return exits; an exception matching
`retryClassified` is recorded; any other exception is re-raised at once.
After a recorded exception, if further attempts remain the computed delay
`min(base_delay * 2^(attempt-1), max_delay)` is slept; when the loop ends
the last recorded exception is re-raised unchanged. -/
def retryGo {α : Type} (fn : Nat → Except PyExc α) (baseDelay maxDelay : ℚ) :
    Nat → Nat → Option PyExc → RetryTrace α
  | 0, _, last =>
      ⟨.error (last.getD (.typeError "exceptions must derive from BaseException")), 0, []⟩
  | remaining + 1, attempt, _ =>
      match fn attempt with
      | .ok a => ⟨.ok a, 1, []⟩
      | .error e =>
          if retryClassified e then
            match remaining with
            | 0 => ⟨.error e, 1, []⟩
            | r + 1 =>
                let d := min (baseDelay * 2 ^ (attempt - 1)) maxDelay
                let t := retryGo fn baseDelay maxDelay (r + 1) (attempt + 1) (some e)
                ⟨t.outcome, t.calls + 1, d :: t.delays⟩
          else ⟨.error e, 1, []⟩

/-- `config.retry(max_attempts, base_delay, max_delay)` applied to a
function whose behaviour on attempt `i` is `fn i`.  Defaults in the source
are `max_attempts=3, base_delay=2.0, max_delay=30.0`. -/
def retryCall {α : Type} (maxAttempts : Nat) (baseDelay maxDelay : ℚ)
    (fn : Nat → Except PyExc α) : RetryTrace α :=
  retryGo fn baseDelay maxDelay maxAttempts 1 none

/-- C7: with the default policy (`max_attempts = 3`), a wrapped function
that raises an unclassified error on every invocation is invoked exactly
once and that error propagates; one that raises a classified retryable
error on every invocation is invoked exactly `max_attempts = 3` times,
sleeping the exponential-backoff delays 2s and 4s in between, and the
exception raised on the last attempt is then re-raised unchanged (the very
same exception value, not a wrapper). -/
theorem retry_termination (α : Type) (fn : Nat → Except PyExc α) (e : PyExc)
    (g : Nat → PyExc) :
    ((∀ i, fn i = .error e) → retryClassified e = false →
      retryCall 3 2 30 fn = ⟨.error e, 1, []⟩)
    ∧ ((∀ i, retryClassified (g i) = true) →
      retryCall 3 2 30 (fun i => (.error (g i) : Except PyExc α))
        = ⟨.error (g 3), 3, [2, 4]⟩) := by
  constructor
  · intro hfn hcls
    simp [retryCall, retryGo, hfn 1, hcls]
  · intro hg
    simp [retryCall, retryGo, hg 1, hg 2, hg 3]
    norm_num

/-- Witness for `retry_termination` at a concrete non-retryable error
(`ValueError`) and a concrete retryable one (`CliRateLimitError`). -/
theorem retry_termination_witness :
    retryCall 3 2 30 (fun _ => (.error (.valueError "invalid API key") : Except PyExc Unit))
      = ⟨.error (.valueError "invalid API key"), 1, []⟩
    ∧ retryCall 3 2 30 (fun _ => (.error (.cliRateLimitError "quota") : Except PyExc Unit))
      = ⟨.error (.cliRateLimitError "quota"), 3, [2, 4]⟩ :=
  ⟨(retry_termination Unit (fun _ => .error (.valueError "invalid API key"))
      (.valueError "invalid API key") (fun _ => .cliRateLimitError "quota")).1
      (fun _ => rfl) (by decide),
   (retry_termination Unit (fun _ => .error (.valueError "invalid API key"))
      (.valueError "invalid API key") (fun _ => .cliRateLimitError "quota")).2
      (fun _ => by decide)⟩

/-! ## Rate-limit signal detection and the provider registry (`doc_analyze.py`) -/

/-- `doc_analyze._RATE_LIMIT_SIGNALS`: the fixed vocabulary of rate-limit /
capacity signal substrings. -/
def RATE_LIMIT_SIGNALS : List String :=
  ["rate limit", "rate_limit", "429", "quota", "try again later",
   "overloaded", "capacity", "cooldown"]

/-- Python's substring test `pat in hay` on character lists: some tail of
`hay` starts with `pat`. -/
def charListContains (hay pat : List Char) : Bool :=
  hay.tails.any (fun t => pat.isPrefixOf t)

/-- Python's substring test `pat in hay` on strings. -/
def strContains (hay pat : String) : Bool :=
  charListContains hay.data pat.data

/-- Python's `str.lower()`, as character-wise lowering (the rate-limit
signal vocabulary is ASCII, where this agrees with Python). -/
def pyLower (s : String) : String :=
  String.mk (s.data.map Char.toLower)

/-- `doc_analyze._is_rate_limit_error`: case-insensitive substring match of
the fixed signal vocabulary against CLI stderr. -/
def is_rate_limit_error (stderr : String) : Bool :=
  RATE_LIMIT_SIGNALS.any (fun s => strContains (pyLower stderr) s)

/-- The three provider adapters of `doc_analyze._PROVIDERS`. -/
inductive ProviderTag : Type where
  | claudeCli
  | codex
  | ollama
  deriving DecidableEq

/-- `doc_analyze._PROVIDERS`: the fixed name → adapter table. -/
def PROVIDERS : List (String × ProviderTag) :=
  [("claude-cli", .claudeCli), ("codex", .codex), ("ollama", .ollama)]

/-- Modelled from the spec: `config.DOC_PROVIDER` (the configured default
provider name read by `doc_analyze.get_provider` when no name is passed or
the passed name is falsy) is absent from the provided `config.py`.  The
spec fixes the provider identity set to the three keys
claude-cli / codex / ollama and says the registry resolves "a configured
default" in that fixed table, so the default is modelled as the first
listed adapter key. -/
def DOC_PROVIDER : String := "claude-cli"

/-- The `ValueError` message of `doc_analyze.get_provider` for an unknown
name: `f"Unknown provider: {name}. Choose from: {list(_PROVIDERS)}"`,
where `list` of the dict yields its keys in insertion order. -/
def unknownProviderMsg (name : String) : String :=
  "Unknown provider: " ++ name ++ ". Choose from: ['claude-cli', 'codex', 'ollama']"

/-- `doc_analyze.get_provider`: `name = name or config.DOC_PROVIDER` (so
`None` and the falsy empty string fall back to the configured default),
then a table lookup, raising `ValueError` when the resolved name matches
no adapter. -/
def get_provider (name : Option String) (docProvider : String) :
    Except PyExc ProviderTag :=
  let n := match name with
    | none => docProvider
    | some s => if s = "" then docProvider else s
  match PROVIDERS.lookup n with
  | some p => .ok p
  | none => .error (.valueError (unknownProviderMsg n))

/-! ## The Claude CLI adapter's transport-failure classification -/

/-- Result of `subprocess.run` as observed by the CLI adapters. -/
structure SubprocessResult : Type where
  returncode : Int
  stdout : String
  stderr : String

/-- The error message built by `ClaudeCliProvider.analyze` on a non-zero
exit: `f"Claude CLI exited {returncode}: {stderr[:500] if stderr else 'no stderr'}"`. -/
def claudeErrMsg (r : SubprocessResult) : String :=
  "Claude CLI exited " ++ toString r.returncode ++ ": " ++
    (if r.stderr = "" then "no stderr" else r.stderr.take 500)

/-- The control flow of `ClaudeCliProvider.analyze` after `subprocess.run`:
on non-zero exit, raise `CliRateLimitError` when stderr is non-empty and
matches a rate-limit signal, else `RuntimeError`; on zero exit proceed to
envelope parsing and validation, abstracted here as the `success` outcome
(its details never matter on the failure paths the claims are about). -/
def claudeCliOutcome {α : Type} (run : SubprocessResult)
    (success : Except PyExc α) : Except PyExc α :=
  if run.returncode ≠ 0 then
    if run.stderr ≠ "" && is_rate_limit_error run.stderr then
      .error (.cliRateLimitError (claudeErrMsg run))
    else .error (.runtimeError (claudeErrMsg run))
  else success

/-- `doc_analyze.analyze_document`: the `@config.retry()`-wrapped entry
point resolving the provider inside the wrapped body and delegating to the
provider's `analyze`.  The transport behaviour of the resolved adapter on
each attempt is abstracted as `behavior`. -/
def analyze_document {α : Type} (providerName : Option String)
    (docProvider : String) (behavior : ProviderTag → Nat → Except PyExc α) :
    RetryTrace α :=
  retryCall 3 2 30 (fun attempt =>
    match get_provider providerName docProvider with
    | .error e => .error e
    | .ok p => behavior p attempt)

/-- Substring containment is preserved by prepending characters. -/
theorem charListContains_append_left (l₁ l₂ pat : List Char)
    (h : charListContains l₂ pat = true) :
    charListContains (l₁ ++ l₂) pat = true := by
  induction l₁ with
  | nil => simpa using h
  | cons x xs ih =>
      simp only [List.cons_append, charListContains, List.tails, List.any_cons,
        Bool.or_eq_true] at ih ⊢
      exact Or.inr ih

/-- Any substring of the constant tail of `unknownProviderMsg` occurs in
the whole message, whatever the offending name was. -/
theorem unknownProviderMsg_contains (name pat : String)
    (h : strContains ". Choose from: ['claude-cli', 'codex', 'ollama']" pat = true) :
    strContains (unknownProviderMsg name) pat = true := by
  unfold unknownProviderMsg strContains
  rw [String.data_append]
  exact charListContains_append_left _ _ _ h

/-- C8 (amended): for every non-empty provider name outside the fixed
table, `get_provider` raises a `ValueError` whose message contains all
three valid provider keys, and `analyze_document` invoked with that name
propagates this error after exactly one attempt with no backoff sleeps
(the `ValueError` is never classified retryable). -/
theorem unknown_provider_error (α : Type) (dflt name : String)
    (behavior : ProviderTag → Nat → Except PyExc α)
    (hne : name ≠ "") (hbad : PROVIDERS.lookup name = none) :
    get_provider (some name) dflt = .error (.valueError (unknownProviderMsg name))
    ∧ strContains (unknownProviderMsg name) "claude-cli" = true
    ∧ strContains (unknownProviderMsg name) "codex" = true
    ∧ strContains (unknownProviderMsg name) "ollama" = true
    ∧ analyze_document (some name) dflt behavior
        = ⟨.error (.valueError (unknownProviderMsg name)), 1, []⟩ := by
  have hgp : get_provider (some name) dflt
      = .error (.valueError (unknownProviderMsg name)) := by
    simp [get_provider, hne, hbad]
  refine ⟨hgp, unknownProviderMsg_contains name _ (by decide),
    unknownProviderMsg_contains name _ (by decide),
    unknownProviderMsg_contains name _ (by decide), ?_⟩
  simp [analyze_document, retryCall, retryGo, hgp, retryClassified,
    isRetryableException, isRetryableStatus]

/-- Witness for `unknown_provider_error` at the name "nonexistent". -/
theorem unknown_provider_error_witness :
    get_provider (some "nonexistent") DOC_PROVIDER
      = .error (.valueError (unknownProviderMsg "nonexistent"))
    ∧ strContains (unknownProviderMsg "nonexistent") "claude-cli" = true
    ∧ strContains (unknownProviderMsg "nonexistent") "codex" = true
    ∧ strContains (unknownProviderMsg "nonexistent") "ollama" = true
    ∧ analyze_document (some "nonexistent") DOC_PROVIDER
        (fun _ _ => (.ok () : Except PyExc Unit))
        = ⟨.error (.valueError (unknownProviderMsg "nonexistent")), 1, []⟩ :=
  unknown_provider_error Unit DOC_PROVIDER "nonexistent" (fun _ _ => .ok ())
    (by decide) (by decide)

/-- C8 counterexample to the original universally quantified form: the
empty string is a provider name that is not one of the three fixed keys,
yet `get_provider("")` does not raise — Python's `name or
config.DOC_PROVIDER` treats the falsy empty string as absent, so the
configured default adapter is returned instead. -/
theorem unknown_provider_empty_name_counterexample :
    PROVIDERS.lookup "" = none
    ∧ get_provider (some "") DOC_PROVIDER = .ok ProviderTag.claudeCli := by
  decide

/-- C1: a chunk-level `analyze_document` call through the Claude CLI
adapter whose transport fails on every attempt with a rate-limit signal in
stderr raises `CliRateLimitError` each time; the retry wrapper classifies
it retryable, so the call is attempted the full `max_attempts = 3` times
with exponential backoff sleeps of 2s and 4s in between (rather than
propagating on the first attempt), and the third attempt's
`CliRateLimitError` is what finally propagates. -/
theorem rate_limited_retried_with_backoff (α : Type) (dflt : String)
    (transport : Nat → SubprocessResult) (success : Nat → Except PyExc α)
    (hrc : ∀ i, (transport i).returncode ≠ 0)
    (hse : ∀ i, (transport i).stderr ≠ "")
    (hrl : ∀ i, is_rate_limit_error (transport i).stderr = true) :
    analyze_document (some "claude-cli") dflt
      (fun _ attempt => claudeCliOutcome (transport attempt) (success attempt))
    = ⟨.error (.cliRateLimitError (claudeErrMsg (transport 3))), 3, [2, 4]⟩ := by
  have hout : ∀ i, claudeCliOutcome (transport i) (success i)
      = .error (.cliRateLimitError (claudeErrMsg (transport i))) := by
    intro i
    simp [claudeCliOutcome, hrc i, hse i, hrl i]
  have hgp : get_provider (some "claude-cli") dflt = .ok .claudeCli := rfl
  simp [analyze_document, retryCall, retryGo, hgp, hout 1, hout 2, hout 3,
    retryClassified, isRetryableException, cliRateLimitErrorIsRetryable]
  norm_num

/-- Witness for `rate_limited_retried_with_backoff` at a transport that
always exits 1 with stderr "Rate limit exceeded, try again later". -/
theorem rate_limited_retried_with_backoff_witness :
    analyze_document (some "claude-cli") DOC_PROVIDER
      (fun _ attempt =>
        claudeCliOutcome (α := Unit)
          ⟨1, "", "Rate limit exceeded, try again later"⟩
          ((fun _ => .ok ()) attempt))
    = ⟨.error (.cliRateLimitError
        (claudeErrMsg ⟨1, "", "Rate limit exceeded, try again later"⟩)), 3, [2, 4]⟩ := by
  exact rate_limited_retried_with_backoff Unit DOC_PROVIDER
    (fun _ => ⟨1, "", "Rate limit exceeded, try again later"⟩) (fun _ => .ok ())
    (by intro i; show (1 : Int) ≠ 0; decide)
    (by intro i; show "Rate limit exceeded, try again later" ≠ ""; decide)
    (by intro i
        show is_rate_limit_error "Rate limit exceeded, try again later" = true
        decide)

/-! ## The document-analysis data model (`models.py`) -/

/-- `models.Sensitivity`: three independent boolean flags. -/
structure Sensitivity : Type where
  has_ssn : Bool
  has_financial : Bool
  has_medical : Bool
  deriving DecidableEq

/-- `models.DocumentAnalysis`: the canonical structured-analysis record.
`date_confidence` (a Python float only ever compared, never added) is
modelled as `ℚ`. -/
structure DocumentAnalysis : Type where
  document_type : String
  title : String
  date : String
  date_confidence : ℚ
  summary_en : String
  summary_zh : String
  key_people : List String
  key_dates : List String
  sensitivity : Sensitivity
  tags : List String
  language : String
  quality : String
  deriving DecidableEq

/-- `models.DocumentInferenceMetadata`: the per-call inference metadata.
Python ints are modelled as `Int`. -/
structure DocumentInferenceMetadata : Type where
  method : String
  provider : String
  model : String
  prompt_version : String
  timestamp : String
  input_tokens : Int
  output_tokens : Int
  chunk_count : Int
  deriving DecidableEq

/-- One chunk result: the `(DocumentAnalysis, DocumentInferenceMetadata)`
pair returned by a provider's `analyze`. -/
abbrev ChunkResult : Type := DocumentAnalysis × DocumentInferenceMetadata

/-! ## The chunk merge engine (`doc_analyze.merge_chunk_analyses`) -/

/-- The inner loop of `merge_chunk_analyses._union_lists` over one input
list: `seen` is the membership set, `result` the order-preserving output
accumulator; an item is appended exactly when not yet seen. -/
def unionInto (seen result : List String) : List String → List String × List String
  | [] => (seen, result)
  | item :: rest =>
      if item ∈ seen then unionInto seen result rest
      else unionInto (item :: seen) (result ++ [item]) rest

/-- `merge_chunk_analyses._union_lists`: order-preserving union of the
given lists (first occurrence wins). -/
def union_lists (lists : List (List String)) : List String :=
  (lists.foldl (fun p lst => unionInto p.1 p.2 lst) ([], [])).2

/-- The highest-confidence-date loop of `merge_chunk_analyses`: starting
from the first chunk's `(date, date_confidence)` pair, replace the running
best exactly when a later chunk's confidence is strictly greater. -/
def bestDateFold (init : String × ℚ) (rest : List ChunkResult) : String × ℚ :=
  rest.foldl
    (fun b p => if p.1.date_confidence > b.2 then (p.1.date, p.1.date_confidence) else b)
    init

/-- `doc_analyze.merge_chunk_analyses`.  A single chunk is returned
unchanged; the empty list raises `IndexError` at `analyses[0]`; otherwise
the per-field aggregation of the source is applied.  `now` stands for the
`datetime.now(timezone.utc).isoformat()` timestamp taken at merge time. -/
def merge_chunk_analyses (now : String) (analyses : List ChunkResult) :
    Except PyExc ChunkResult :=
  match analyses with
  | [] => .error (.indexError "list index out of range")
  | [x] => .ok x
  | first :: rest =>
      let best := bestDateFold (first.1.date, first.1.date_confidence) rest
      let all := first :: rest
      let all_people := union_lists (all.map (fun p => p.1.key_people))
      let all_dates := union_lists (all.map (fun p => p.1.key_dates))
      let all_tags := union_lists (all.map (fun p => p.1.tags))
      let merged_sensitivity : Sensitivity :=
        ⟨all.any (fun p => p.1.sensitivity.has_ssn),
         all.any (fun p => p.1.sensitivity.has_financial),
         all.any (fun p => p.1.sensitivity.has_medical)⟩
      let en_parts := (all.map (fun p => p.1.summary_en)).filter (fun s => s ≠ "")
      let zh_parts := (all.map (fun p => p.1.summary_zh)).filter (fun s => s ≠ "")
      let merged_analysis : DocumentAnalysis :=
        { document_type := first.1.document_type,
          title := first.1.title,
          date := best.1,
          date_confidence := best.2,
          summary_en := String.intercalate " " en_parts,
          summary_zh := String.join zh_parts,
          key_people := all_people,
          key_dates := all_dates,
          sensitivity := merged_sensitivity,
          tags := all_tags,
          language := first.1.language,
          quality := first.1.quality }
      let merged_inference : DocumentInferenceMetadata :=
        { method := first.2.method,
          provider := first.2.provider,
          model := first.2.model,
          prompt_version := first.2.prompt_version,
          timestamp := now,
          input_tokens := (all.map (fun p => p.2.input_tokens)).sum,
          output_tokens := (all.map (fun p => p.2.output_tokens)).sum,
          chunk_count := all.length }
      .ok (merged_analysis, merged_inference)

/-- A sample chunk result used to instantiate claims at concrete inputs. -/
def sampleChunk (date : String) (conf : ℚ) (tags : List String) (ssn : Bool)
    (inTok : Int) : ChunkResult :=
  (⟨"letter", "t", date, conf, "", "", [], [], ⟨ssn, false, false⟩, tags, "en", "good"⟩,
   ⟨"auto", "claude-cli", "m", "document_analysis_v1", "ts", inTok, 0, 1⟩)

/-- C10: `merge_chunk_analyses` carries the unstated precondition of at
least one chunk: on the empty list the subscript `analyses[0]` raises an
unhandled `IndexError` (no result, and not one of the classified failure
kinds), while every non-empty list yields a merged result. -/
theorem merge_requires_nonempty :
    (∀ now, merge_chunk_analyses now [] = .error (.indexError "list index out of range"))
    ∧ (∀ now (l : List ChunkResult), l ≠ [] →
        ∃ r, merge_chunk_analyses now l = .ok r) := by
  refine ⟨fun now => rfl, fun now l hl => ?_⟩
  match l with
  | [] => exact absurd rfl hl
  | [x] => exact ⟨x, rfl⟩
  | x :: y :: t => exact ⟨_, rfl⟩

/-- Witness for `merge_requires_nonempty`: the empty list errors, a
one-chunk list merges. -/
theorem merge_requires_nonempty_witness :
    merge_chunk_analyses "ts" [] = .error (.indexError "list index out of range")
    ∧ ∃ r, merge_chunk_analyses "ts" [sampleChunk "1999" 0.5 ["x"] false 1] = .ok r :=
  ⟨merge_requires_nonempty.1 "ts",
   merge_requires_nonempty.2 "ts" [sampleChunk "1999" 0.5 ["x"] false 1] (by simp)⟩

/-- C4: for two or more chunks, each merged sensitivity flag is the
logical OR of that flag across all chunks (independently per flag), the
merged token counters are the arithmetic sums of the per-chunk counters,
and the merged `chunk_count` is the number of chunks merged. -/
theorem merge_flags_tokens_count (now : String) (analyses : List ChunkResult)
    (h : 2 ≤ analyses.length) :
    ∃ a m, merge_chunk_analyses now analyses = .ok (a, m)
      ∧ (a.sensitivity.has_ssn = true ↔ ∃ p ∈ analyses, p.1.sensitivity.has_ssn = true)
      ∧ (a.sensitivity.has_financial = true
          ↔ ∃ p ∈ analyses, p.1.sensitivity.has_financial = true)
      ∧ (a.sensitivity.has_medical = true
          ↔ ∃ p ∈ analyses, p.1.sensitivity.has_medical = true)
      ∧ m.input_tokens = (analyses.map (fun p => p.2.input_tokens)).sum
      ∧ m.output_tokens = (analyses.map (fun p => p.2.output_tokens)).sum
      ∧ m.chunk_count = analyses.length := by
  match analyses, h with
  | x :: y :: t, _ =>
    refine ⟨_, _, rfl, ?_, ?_, ?_, rfl, rfl, rfl⟩ <;>
      simp [List.any_eq_true]

/-- Witness for `merge_flags_tokens_count` at the two-chunk example from
the spec's end-to-end scenario (ssn flags false/true, tokens 10/20). -/
theorem merge_flags_tokens_count_witness :
    ∃ a m, merge_chunk_analyses "ts"
        [sampleChunk "d1" 0.2 ["x"] false 10, sampleChunk "d2" 0.95 ["y"] true 20]
        = .ok (a, m)
      ∧ a.sensitivity.has_ssn = true
      ∧ m.input_tokens = 30
      ∧ m.chunk_count = 2 := by
  obtain ⟨a, m, heq, hssn, _, _, hin, _, hcnt⟩ :=
    merge_flags_tokens_count "ts"
      [sampleChunk "d1" 0.2 ["x"] false 10, sampleChunk "d2" 0.95 ["y"] true 20]
      (by simp)
  refine ⟨a, m, heq, ?_, ?_, ?_⟩
  · exact hssn.mpr ⟨sampleChunk "d2" 0.95 ["y"] true 20, by simp [sampleChunk]⟩
  · rw [hin]; simp [sampleChunk]
  · rw [hcnt]; rfl

/-- Characterization of the strictly-greater best-date fold: either no
later chunk strictly beats the initial pair (which is then kept), or the
result is the pair of the first list entry attaining a confidence that is
strictly above the initial one and never exceeded afterwards. -/
theorem bestDateFold_spec (l : List ChunkResult) (init : String × ℚ) :
    (bestDateFold init l = init ∧ ∀ p ∈ l, p.1.date_confidence ≤ init.2)
    ∨ (∃ (i : Nat) (hi : i < l.length),
        bestDateFold init l
          = ((l.get ⟨i, hi⟩).1.date, (l.get ⟨i, hi⟩).1.date_confidence)
        ∧ init.2 < (bestDateFold init l).2
        ∧ (∀ p ∈ l, p.1.date_confidence ≤ (bestDateFold init l).2)
        ∧ (∀ (j : Nat) (hj : j < l.length), j < i →
            (l.get ⟨j, hj⟩).1.date_confidence < (bestDateFold init l).2)) := by
  induction l generalizing init with
  | nil => exact Or.inl ⟨rfl, by simp⟩
  | cons p rest ih =>
    by_cases hc : p.1.date_confidence > init.2
    · have hstep : bestDateFold init (p :: rest)
          = bestDateFold (p.1.date, p.1.date_confidence) rest := by
        simp [bestDateFold, hc]
      rcases ih (p.1.date, p.1.date_confidence) with ⟨hr, hall⟩ |
        ⟨i, hi, hr, hinit, hall, hstrict⟩
      · refine Or.inr ⟨0, by simp, ?_, ?_, ?_, ?_⟩
        · rw [hstep, hr]; rfl
        · rw [hstep, hr]; exact hc
        · intro q hq
          rw [hstep, hr]
          rcases List.mem_cons.mp hq with h0 | hrest
          · exact le_of_eq (by rw [h0])
          · exact hall q hrest
        · intro j hj hj0
          exact absurd hj0 (Nat.not_lt_zero j)
      · refine Or.inr ⟨i + 1, by simpa using Nat.succ_lt_succ hi, ?_, ?_, ?_, ?_⟩
        · rw [hstep, hr]; rfl
        · rw [hstep]
          exact lt_trans hc hinit
        · intro q hq
          rw [hstep]
          rcases List.mem_cons.mp hq with h0 | hrest
          · rw [h0]
            exact le_of_lt hinit
          · exact hall q hrest
        · intro j hj hjlt
          rw [hstep]
          match j, hjlt with
          | 0, _ =>
              show (p.1.date_confidence : ℚ) < _
              exact hinit
          | k + 1, hk =>
              have hk' : k < i := Nat.lt_of_succ_lt_succ hk
              have := hstrict k (by simpa using Nat.lt_of_succ_lt_succ hj) hk'
              simpa [hstep] using this
    · have hstep : bestDateFold init (p :: rest) = bestDateFold init rest := by
        simp [bestDateFold, hc]
      have hple : p.1.date_confidence ≤ init.2 := le_of_not_lt hc
      rcases ih init with ⟨hr, hall⟩ | ⟨i, hi, hr, hinit, hall, hstrict⟩
      · refine Or.inl ⟨by rw [hstep, hr], ?_⟩
        intro q hq
        rcases List.mem_cons.mp hq with h0 | hrest
        · rw [h0]; exact hple
        · exact hall q hrest
      · refine Or.inr ⟨i + 1, by simpa using Nat.succ_lt_succ hi, ?_, ?_, ?_, ?_⟩
        · rw [hstep, hr]; rfl
        · rw [hstep]; exact hinit
        · intro q hq
          rw [hstep]
          rcases List.mem_cons.mp hq with h0 | hrest
          · rw [h0]; exact le_of_lt (lt_of_le_of_lt hple hinit)
          · exact hall q hrest
        · intro j hj hjlt
          rw [hstep]
          match j, hjlt with
          | 0, _ =>
              show (p.1.date_confidence : ℚ) < _
              exact lt_of_le_of_lt hple hinit
          | k + 1, hk =>
              have hk' : k < i := Nat.lt_of_succ_lt_succ hk
              have := hstrict k (by simpa using Nat.lt_of_succ_lt_succ hj) hk'
              simpa [hstep] using this

/-- C2: for every non-empty chunk list, the merged `date`/`date_confidence`
pair comes from the earliest-seen chunk attaining the overall maximum
confidence (strictly-greater comparison: every strictly earlier chunk has
strictly smaller confidence, no chunk has larger confidence).  In
particular, with confidences 0.5/0.5/0.9 the third chunk's date wins, and
with 0.9/0.9 and different dates the first chunk's date wins. -/
theorem merge_date_highest_confidence (now : String)
    (analyses : List ChunkResult) (h : analyses ≠ []) :
    (∃ a m, merge_chunk_analyses now analyses = .ok (a, m)
      ∧ ∃ (i : Nat) (hi : i < analyses.length),
          a.date = (analyses.get ⟨i, hi⟩).1.date
          ∧ a.date_confidence = (analyses.get ⟨i, hi⟩).1.date_confidence
          ∧ (∀ p ∈ analyses, p.1.date_confidence ≤ a.date_confidence)
          ∧ (∀ (j : Nat) (hj : j < analyses.length), j < i →
              (analyses.get ⟨j, hj⟩).1.date_confidence < a.date_confidence))
    ∧ (∃ a m, merge_chunk_analyses "ts"
          [sampleChunk "2000-01-01" 0.5 [] false 0,
           sampleChunk "2001-05-05" 0.5 [] false 0,
           sampleChunk "1999-06-15" 0.9 [] false 0] = .ok (a, m)
        ∧ a.date = "1999-06-15" ∧ a.date_confidence = 0.9)
    ∧ (∃ a m, merge_chunk_analyses "ts"
          [sampleChunk "1990-01-01" 0.9 [] false 0,
           sampleChunk "1991-01-01" 0.9 [] false 0] = .ok (a, m)
        ∧ a.date = "1990-01-01" ∧ a.date_confidence = 0.9) := by
  refine ⟨?_,
    ⟨_, _, rfl, by norm_num [bestDateFold, sampleChunk],
      by norm_num [bestDateFold, sampleChunk]⟩,
    ⟨_, _, rfl, by norm_num [bestDateFold, sampleChunk],
      by norm_num [bestDateFold, sampleChunk]⟩⟩
  match analyses with
  | [x] =>
      exact ⟨x.1, x.2, rfl, 0, by simp, rfl, rfl,
        by intro p hp; rw [List.mem_singleton.mp hp],
        by intro j hj hj0; exact absurd hj0 (Nat.not_lt_zero j)⟩
  | first :: y :: t =>
      set rest := y :: t with hrest
      rcases bestDateFold_spec rest (first.1.date, first.1.date_confidence) with
        ⟨hr, hall⟩ | ⟨i, hi, hr, hinit, hall, hstrict⟩
      · refine ⟨_, _, rfl, 0, by simp, ?_, ?_, ?_, ?_⟩
        · show (bestDateFold (first.1.date, first.1.date_confidence) rest).1
            = first.1.date
          rw [hr]
        · show (bestDateFold (first.1.date, first.1.date_confidence) rest).2
            = first.1.date_confidence
          rw [hr]
        · intro p hp
          show p.1.date_confidence
            ≤ (bestDateFold (first.1.date, first.1.date_confidence) rest).2
          rw [hr]
          rcases List.mem_cons.mp hp with h0 | hmem
          · rw [h0]
          · exact hall p hmem
        · intro j hj hj0
          exact absurd hj0 (Nat.not_lt_zero j)
      · refine ⟨_, _, rfl, i + 1, Nat.succ_lt_succ hi, ?_, ?_, ?_, ?_⟩
        · show (bestDateFold (first.1.date, first.1.date_confidence) rest).1
            = ((first :: rest).get ⟨i + 1, Nat.succ_lt_succ hi⟩).1.date
          rw [hr]
          rfl
        · show (bestDateFold (first.1.date, first.1.date_confidence) rest).2
            = ((first :: rest).get ⟨i + 1, Nat.succ_lt_succ hi⟩).1.date_confidence
          rw [hr]
          rfl
        · intro p hp
          show p.1.date_confidence
            ≤ (bestDateFold (first.1.date, first.1.date_confidence) rest).2
          rcases List.mem_cons.mp hp with h0 | hmem
          · rw [h0]; exact le_of_lt hinit
          · exact hall p hmem
        · intro j hj hjlt
          show ((first :: rest).get ⟨j, hj⟩).1.date_confidence
            < (bestDateFold (first.1.date, first.1.date_confidence) rest).2
          match j, hj, hjlt with
          | 0, _, _ => exact hinit
          | k + 1, hk, hklt =>
              exact hstrict k (Nat.lt_of_succ_lt_succ hk)
                (Nat.lt_of_succ_lt_succ hklt)

/-- A concrete two-chunk list used to instantiate C2's general part. -/
def twoChunks : List ChunkResult :=
  [sampleChunk "1980" 0.3 [] false 0, sampleChunk "1981" 0.8 [] false 0]

/-- Witness for `merge_date_highest_confidence` instantiating the general
highest-confidence characterization at a concrete two-chunk list. -/
theorem merge_date_highest_confidence_witness :
    ∃ a m, merge_chunk_analyses "ts" twoChunks = .ok (a, m)
      ∧ ∃ (i : Nat) (hi : i < twoChunks.length),
          a.date = (twoChunks.get ⟨i, hi⟩).1.date
          ∧ a.date_confidence = (twoChunks.get ⟨i, hi⟩).1.date_confidence
          ∧ (∀ p ∈ twoChunks, p.1.date_confidence ≤ a.date_confidence)
          ∧ (∀ (j : Nat) (hj : j < twoChunks.length), j < i →
              (twoChunks.get ⟨j, hj⟩).1.date_confidence < a.date_confidence) :=
  (merge_date_highest_confidence "ts" twoChunks (by simp [twoChunks])).1

/-- The claim's wording of "ordered union" applied to an already
concatenated list: keep the first occurrence of each distinct string,
preserve first-seen order, drop subsequent duplicates (exact string
equality, no normalization). -/
def keepFirstOccurrences : List String → List String
  | [] => []
  | x :: xs => x :: keepFirstOccurrences (xs.filter (fun y => decide (y ≠ x)))
termination_by l => l.length
decreasing_by
  simp only [List.length_cons]
  exact Nat.lt_succ_of_le (List.length_filter_le _ _)

/-- Processing a concatenation with `unionInto` is processing the two
parts in sequence. -/
theorem unionInto_append (l₁ : List String) : ∀ (l₂ seen result : List String),
    unionInto seen result (l₁ ++ l₂)
      = unionInto (unionInto seen result l₁).1 (unionInto seen result l₁).2 l₂ := by
  induction l₁ with
  | nil => intro l₂ seen result; rfl
  | cons x xs ih =>
      intro l₂ seen result
      by_cases hx : x ∈ seen
      · simp only [List.cons_append, unionInto, if_pos hx]
        exact ih l₂ seen result
      · simp only [List.cons_append, unionInto, if_neg hx]
        exact ih l₂ (x :: seen) (result ++ [x])

/-- The fold of `union_lists` over the outer lists equals one `unionInto`
pass over their concatenation. -/
theorem foldl_unionInto (lists : List (List String)) : ∀ seen result : List String,
    lists.foldl (fun p lst => unionInto p.1 p.2 lst) (seen, result)
      = unionInto seen result lists.flatten := by
  induction lists with
  | nil => intro seen result; rfl
  | cons l ls ih =>
      intro seen result
      rw [List.flatten_cons, unionInto_append, List.foldl_cons]
      exact ih (unionInto seen result l).1 (unionInto seen result l).2

/-- What one `unionInto` pass appends to its accumulator: the
first-occurrence dedup of the not-yet-seen items, in order. -/
theorem unionInto_spec (l : List String) : ∀ seen result : List String,
    (unionInto seen result l).2
      = result ++ keepFirstOccurrences (l.filter (fun x => decide (x ∉ seen))) := by
  induction l with
  | nil =>
      intro seen result
      simp [unionInto, keepFirstOccurrences]
  | cons item rest ih =>
      intro seen result
      by_cases hmem : item ∈ seen
      · have hdec : (decide (item ∉ seen)) = false := by simp [hmem]
        simp only [unionInto, if_pos hmem, List.filter_cons, hdec,
          Bool.false_eq_true, if_neg (Bool.false_ne_true)]
        exact ih seen result
      · have hdec : (decide (item ∉ seen)) = true := by simp [hmem]
        have hfilter : (rest.filter (fun x => decide (x ∉ seen))).filter
              (fun y => decide (y ≠ item))
            = rest.filter (fun x => decide (x ∉ item :: seen)) := by
          rw [List.filter_filter]
          apply List.filter_congr
          intro x _
          by_cases h1 : x = item <;> by_cases h2 : x ∈ seen <;>
            simp [h1, h2, List.mem_cons]
        have hkeep : keepFirstOccurrences
              (item :: rest.filter (fun x => decide (x ∉ seen)))
            = item :: keepFirstOccurrences
                ((rest.filter (fun x => decide (x ∉ seen))).filter
                  (fun y => decide (y ≠ item))) := by
          conv_lhs => rw [keepFirstOccurrences.eq_def]
        simp only [unionInto, if_neg hmem]
        calc (unionInto (item :: seen) (result ++ [item]) rest).2
            = (result ++ [item]) ++ keepFirstOccurrences
                (rest.filter (fun x => decide (x ∉ item :: seen))) :=
              ih (item :: seen) (result ++ [item])
          _ = result ++ (item :: keepFirstOccurrences
                (rest.filter (fun x => decide (x ∉ item :: seen)))) := by simp
          _ = result ++ keepFirstOccurrences
                ((item :: rest).filter (fun x => decide (x ∉ seen))) := by
              rw [List.filter_cons, hdec]
              simp only [if_true]
              rw [hkeep, hfilter]


/-- `_union_lists` is the first-occurrence dedup of the concatenation of
its inputs: the ordered union in the claim's wording. -/
theorem union_lists_eq_keepFirst (lists : List (List String)) :
    union_lists lists = keepFirstOccurrences lists.flatten := by
  unfold union_lists
  rw [foldl_unionInto, unionInto_spec lists.flatten [] []]
  have hone : (fun x : String => decide (x ∉ ([] : List String)))
      = fun _ => true := by
    funext x; simp
  simp only [hone, List.filter_true, List.nil_append]

/-- C3 (amended): for every list of TWO or more chunk results, each of
the merged `key_people`, `key_dates` and `tags` lists is the ordered union
of the corresponding per-chunk lists — concatenation in chunk order, only
the first occurrence of each distinct string kept, first-seen order
preserved, later duplicates dropped, keyed on the exact string value.  (A
single-chunk list is returned unchanged, so a duplicate inside that
chunk's own list survives; see the counterexample.) -/
theorem merge_ordered_union (now : String) (analyses : List ChunkResult)
    (h : 2 ≤ analyses.length) :
    ∃ a m, merge_chunk_analyses now analyses = .ok (a, m)
      ∧ a.key_people
          = keepFirstOccurrences (analyses.map (fun p => p.1.key_people)).flatten
      ∧ a.key_dates
          = keepFirstOccurrences (analyses.map (fun p => p.1.key_dates)).flatten
      ∧ a.tags
          = keepFirstOccurrences (analyses.map (fun p => p.1.tags)).flatten := by
  match analyses, h with
  | x :: y :: t, _ =>
      exact ⟨_, _, rfl, union_lists_eq_keepFirst _, union_lists_eq_keepFirst _,
        union_lists_eq_keepFirst _⟩

/-- Witness for `merge_ordered_union`: tags [["a","b"],["b","c"]] merge to
["a","b","c"]. -/
theorem merge_ordered_union_witness :
    ∃ a m, merge_chunk_analyses "ts"
        [sampleChunk "d1" 0.5 ["a", "b"] false 0,
         sampleChunk "d2" 0.5 ["b", "c"] false 0] = .ok (a, m)
      ∧ a.tags = ["a", "b", "c"] := by
  obtain ⟨a, m, heq, _, _, htags⟩ := merge_ordered_union "ts"
    [sampleChunk "d1" 0.5 ["a", "b"] false 0,
     sampleChunk "d2" 0.5 ["b", "c"] false 0] (by simp)
  refine ⟨a, m, heq, ?_⟩
  rw [htags]
  simp [sampleChunk, keepFirstOccurrences.eq_def]

/-- C3 counterexample to the original "every non-empty list" form: a
single chunk whose `tags` list carries an exact duplicate is returned
unchanged by the merge (identity case), so the merged `tags` is
["x","x"], not the ordered union ["x"]. -/
theorem merge_union_singleton_counterexample :
    (∃ a m, merge_chunk_analyses "ts" [sampleChunk "d" 0.5 ["x", "x"] false 0]
        = .ok (a, m) ∧ a.tags = ["x", "x"])
    ∧ keepFirstOccurrences
        (([sampleChunk "d" 0.5 ["x", "x"] false 0].map (fun p => p.1.tags)).flatten)
        = ["x"]
    ∧ (["x", "x"] : List String) ≠ ["x"] := by
  refine ⟨⟨_, _, rfl, rfl⟩, ?_, by simp⟩
  simp [sampleChunk, keepFirstOccurrences.eq_def]


/-! ## Pydantic validation semantics (`models.py`) -/

/-- JSON-like values appearing in raw provider responses and keyword
arguments. -/
inductive JVal : Type where
  | str (s : String)
  | num (q : ℚ)
  | bool (b : Bool)
  | arr (xs : List JVal)
  | obj (fields : List (String × JVal))
  | null

/-- Pydantic coercion to `str` (modelled conservatively: a JSON string). -/
def asStr : JVal → Option String
  | .str s => some s
  | _ => none

/-- Pydantic coercion to `float` (a JSON number; modelled on `ℚ`). -/
def asFloat : JVal → Option ℚ
  | .num q => some q
  | _ => none

/-- Pydantic coercion to `bool`. -/
def asBool : JVal → Option Bool
  | .bool b => some b
  | _ => none

/-- Pydantic coercion to `int` (a JSON number with no fractional part). -/
def asInt : JVal → Option Int
  | .num q => if q.den = 1 then some q.num else none
  | _ => none

/-- Pydantic coercion to `list[str]`. -/
def asStrList : JVal → Option (List String)
  | .arr xs => xs.mapM asStr
  | _ => none

/-- Whether a declared field validates: an absent field always does (its
default applies), a present one iff its value coerces. -/
def fieldOk {α : Type} (m : List (String × JVal)) (key : String)
    (parse : JVal → Option α) : Bool :=
  match m.lookup key with
  | none => true
  | some v => (parse v).isSome

/-- The validated value of a declared field: the default when absent, the
coerced value when present. -/
def fieldVal {α : Type} (m : List (String × JVal)) (key : String)
    (parse : JVal → Option α) (dflt : α) : α :=
  match m.lookup key with
  | none => dflt
  | some v => (parse v).getD dflt

/-- `Sensitivity.model_validate` from `models.py`: three bool fields, all
defaulting to `False`, `extra="ignore"`. -/
def validateSensitivity (m : List (String × JVal)) : Option Sensitivity :=
  if fieldOk m "has_ssn" asBool && fieldOk m "has_financial" asBool
      && fieldOk m "has_medical" asBool then
    some ⟨fieldVal m "has_ssn" asBool false,
          fieldVal m "has_financial" asBool false,
          fieldVal m "has_medical" asBool false⟩
  else none

/-- Coercion of a raw value to the nested `Sensitivity` model. -/
def asSensitivity : JVal → Option Sensitivity
  | .obj fields => validateSensitivity fields
  | _ => none

/-- The declared field names of `models.DocumentAnalysis`. -/
def docAnalysisKeys : List String :=
  ["document_type", "title", "date", "date_confidence", "summary_en",
   "summary_zh", "key_people", "key_dates", "sensitivity", "tags",
   "language", "quality"]

/-- `DocumentAnalysis.model_validate` from `models.py`: every declared
field has a safe default and `model_config` sets `extra="ignore"`, so
validation reads exactly the declared keys (unknown entries are never
consulted), substitutes the default for each absent key, and fails only
when a present declared field's value fails coercion. -/
def validateDocumentAnalysis (m : List (String × JVal)) : Option DocumentAnalysis :=
  if fieldOk m "document_type" asStr && fieldOk m "title" asStr
      && fieldOk m "date" asStr && fieldOk m "date_confidence" asFloat
      && fieldOk m "summary_en" asStr && fieldOk m "summary_zh" asStr
      && fieldOk m "key_people" asStrList && fieldOk m "key_dates" asStrList
      && fieldOk m "sensitivity" asSensitivity && fieldOk m "tags" asStrList
      && fieldOk m "language" asStr && fieldOk m "quality" asStr then
    some
      { document_type := fieldVal m "document_type" asStr "",
        title := fieldVal m "title" asStr "",
        date := fieldVal m "date" asStr "",
        date_confidence := fieldVal m "date_confidence" asFloat 0,
        summary_en := fieldVal m "summary_en" asStr "",
        summary_zh := fieldVal m "summary_zh" asStr "",
        key_people := fieldVal m "key_people" asStrList [],
        key_dates := fieldVal m "key_dates" asStrList [],
        sensitivity := fieldVal m "sensitivity" asSensitivity ⟨false, false, false⟩,
        tags := fieldVal m "tags" asStrList [],
        language := fieldVal m "language" asStr "",
        quality := fieldVal m "quality" asStr "" }
  else none

/-- Validation only reads the declared keys: mappings agreeing on their
lookups validate identically. -/
theorem validateDocumentAnalysis_congr (m₁ m₂ : List (String × JVal))
    (h : ∀ key, docAnalysisKeys.contains key = true →
      m₁.lookup key = m₂.lookup key) :
    validateDocumentAnalysis m₁ = validateDocumentAnalysis m₂ := by
  unfold validateDocumentAnalysis fieldOk fieldVal
  rw [h "document_type" (by decide), h "title" (by decide), h "date" (by decide),
    h "date_confidence" (by decide), h "summary_en" (by decide),
    h "summary_zh" (by decide), h "key_people" (by decide),
    h "key_dates" (by decide), h "sensitivity" (by decide),
    h "tags" (by decide), h "language" (by decide), h "quality" (by decide)]

/-- Dropping entries whose key is not a declared field never changes a
lookup of a declared field. -/
theorem lookup_filter_declared (m : List (String × JVal)) (key : String)
    (h : docAnalysisKeys.contains key = true) :
    (m.filter (fun p => docAnalysisKeys.contains p.1)).lookup key
      = m.lookup key := by
  induction m with
  | nil => rfl
  | cons p rest ih =>
      rw [List.filter_cons]
      by_cases hk : docAnalysisKeys.contains p.1 = true
      · rw [if_pos hk]
        simp only [List.lookup]
        cases he : key == p.1 with
        | true => rfl
        | false => exact ih
      · rw [if_neg hk]
        have he : (key == p.1) = false := by
          cases hb : key == p.1 with
          | true => exact absurd (beq_iff_eq.mp hb ▸ h) hk
          | false => rfl
        simp only [List.lookup, he]
        exact ih

/-- C9: validating a raw mapping into `DocumentAnalysis` never fails on
account of unknown or missing keys — entries with undeclared keys are
silently dropped (filtering them away never changes the result, so their
presence can neither be rejected nor observed), every missing declared
field takes its safe default (empty string / 0.0 / empty list / all-false
sensitivity), and in particular the empty mapping validates to the
all-defaults record. -/
theorem validate_tolerates_unknown_and_missing (m : List (String × JVal)) :
    validateDocumentAnalysis m
      = validateDocumentAnalysis (m.filter (fun p => docAnalysisKeys.contains p.1))
    ∧ validateDocumentAnalysis []
      = some ⟨"", "", "", 0, "", "", [], [], ⟨false, false, false⟩, [], "", ""⟩
    ∧ (∀ r, validateDocumentAnalysis m = some r →
        (m.lookup "document_type" = none → r.document_type = "")
        ∧ (m.lookup "title" = none → r.title = "")
        ∧ (m.lookup "date" = none → r.date = "")
        ∧ (m.lookup "date_confidence" = none → r.date_confidence = 0)
        ∧ (m.lookup "summary_en" = none → r.summary_en = "")
        ∧ (m.lookup "summary_zh" = none → r.summary_zh = "")
        ∧ (m.lookup "key_people" = none → r.key_people = [])
        ∧ (m.lookup "key_dates" = none → r.key_dates = [])
        ∧ (m.lookup "sensitivity" = none → r.sensitivity = ⟨false, false, false⟩)
        ∧ (m.lookup "tags" = none → r.tags = [])
        ∧ (m.lookup "language" = none → r.language = "")
        ∧ (m.lookup "quality" = none → r.quality = "")) := by
  refine ⟨?_, rfl, ?_⟩
  · exact validateDocumentAnalysis_congr m _
      (fun key h => (lookup_filter_declared m key h).symm)
  · intro r hr
    unfold validateDocumentAnalysis at hr
    split at hr
    · obtain rfl := Option.some.inj hr
      refine ⟨?_, ?_, ?_, ?_, ?_, ?_, ?_, ?_, ?_, ?_, ?_, ?_⟩ <;>
        · intro hnone
          simp [fieldVal, hnone]
    · exact absurd hr (by simp)

/-- Witness for `validate_tolerates_unknown_and_missing` at a mapping
holding one unknown field and one declared field. -/
theorem validate_tolerates_unknown_and_missing_witness :
    validateDocumentAnalysis [("unknown_field", .str "x"), ("title", .str "T")]
      = validateDocumentAnalysis
          ([("unknown_field", .str "x"), ("title", .str "T")].filter
            (fun p => docAnalysisKeys.contains p.1))
    ∧ validateDocumentAnalysis []
      = some ⟨"", "", "", 0, "", "", [], [], ⟨false, false, false⟩, [], "", ""⟩
    ∧ (∀ r, validateDocumentAnalysis [("unknown_field", .str "x"), ("title", .str "T")]
          = some r →
        ([("unknown_field", JVal.str "x"), ("title", JVal.str "T")].lookup "tags" = none
          → r.tags = [])) :=
  ⟨(validate_tolerates_unknown_and_missing
      [("unknown_field", .str "x"), ("title", .str "T")]).1,
   (validate_tolerates_unknown_and_missing
      [("unknown_field", .str "x"), ("title", .str "T")]).2.1,
   fun r hr =>
     (((validate_tolerates_unknown_and_missing
        [("unknown_field", .str "x"), ("title", .str "T")]).2.2 r hr).2.2.2.2.2.2.2.2.2).1⟩

/-! ## The inference-metadata construction of the Claude CLI adapter -/

/-- The field names declared by `models.DocumentInferenceMetadata`
(lines 80-88 of `models.py`) — note the absence of
`estimated_input_tokens`. -/
def documentInferenceMetadataFields : List String :=
  ["method", "provider", "model", "prompt_version", "timestamp",
   "input_tokens", "output_tokens", "chunk_count"]

/-- `DocumentInferenceMetadata(**kwargs)`: Pydantic validates exactly the
declared fields (defaulting absent ones) and, under the default
`extra="ignore"` configuration of Pydantic v2 `BaseModel` (this model sets
no `model_config`), silently drops every keyword argument whose name is
not a declared field. -/
def mkDocumentInferenceMetadata (kwargs : List (String × JVal)) :
    Option DocumentInferenceMetadata :=
  if fieldOk kwargs "method" asStr && fieldOk kwargs "provider" asStr
      && fieldOk kwargs "model" asStr && fieldOk kwargs "prompt_version" asStr
      && fieldOk kwargs "timestamp" asStr && fieldOk kwargs "input_tokens" asInt
      && fieldOk kwargs "output_tokens" asInt
      && fieldOk kwargs "chunk_count" asInt then
    some
      { method := fieldVal kwargs "method" asStr "",
        provider := fieldVal kwargs "provider" asStr "",
        model := fieldVal kwargs "model" asStr "",
        prompt_version := fieldVal kwargs "prompt_version" asStr "",
        timestamp := fieldVal kwargs "timestamp" asStr "",
        input_tokens := fieldVal kwargs "input_tokens" asInt 0,
        output_tokens := fieldVal kwargs "output_tokens" asInt 0,
        chunk_count := fieldVal kwargs "chunk_count" asInt 1 }
  else none

/-- The keyword arguments `ClaudeCliProvider.analyze` passes to
`DocumentInferenceMetadata` (lines 141-150 of `doc_analyze.py`):
`method="auto"`, `provider=self.name`, the model and timestamp, the
usage counters, and `estimated_input_tokens=len(text) // 4`. -/
def claudeInferenceKwargs (text model now : String)
    (inputTokens outputTokens : Int) : List (String × JVal) :=
  [("method", .str "auto"),
   ("provider", .str "claude-cli"),
   ("model", .str model),
   ("prompt_version", .str "document_analysis_v1"),
   ("timestamp", .str now),
   ("input_tokens", .num inputTokens),
   ("output_tokens", .num outputTokens),
   ("estimated_input_tokens", .num ((text.length / 4 : Nat) : ℚ))]

/-- C6 (evaluation at the failing input): the Claude adapter passes
`estimated_input_tokens = len(text) // 4` (here `8 // 4 = 2`) as a keyword
argument, but `DocumentInferenceMetadata` declares no such field, so the
construction yields exactly the record built without that argument — the
returned metadata does not carry the estimate.  (The other two adapters
pass the same keyword to the same model.) -/
theorem estimated_input_tokens_dropped :
    ("estimated_input_tokens" ∉ documentInferenceMetadataFields)
    ∧ (claudeInferenceKwargs "12345678" "m" "ts" 10 5).lookup "estimated_input_tokens"
        = some (.num ((2 : Nat) : ℚ))
    ∧ mkDocumentInferenceMetadata (claudeInferenceKwargs "12345678" "m" "ts" 10 5)
        = mkDocumentInferenceMetadata
            ((claudeInferenceKwargs "12345678" "m" "ts" 10 5).filter
              (fun p => p.1 ≠ "estimated_input_tokens"))
    ∧ mkDocumentInferenceMetadata (claudeInferenceKwargs "12345678" "m" "ts" 10 5)
        = some ⟨"auto", "claude-cli", "m", "document_analysis_v1", "ts", 10, 5, 1⟩ := by
  refine ⟨by decide, rfl, rfl, rfl⟩

/-! ## The schema strict-mode transform (`doc_analyze._make_openai_strict`) -/

/-- A JSON-Schema-like tree as read and written by
`doc_analyze._make_openai_strict`: the dict keys the function consults
(`type`, `properties`, `items`, `$defs`, `default`) and the keys it writes
(`additionalProperties`, `required`) are modelled as fields; every other
dict entry is inert and omitted.  `hasDefault` records whether the node
carries a `default` key; `addProps`/`required` are `none` when the key is
absent. -/
inductive JSchema : Type where
  | node (typ : String)
      (properties : Option (List (String × JSchema)))
      (items : Option JSchema)
      (defs : List (String × JSchema))
      (hasDefault : Bool)
      (addProps : Option Bool)
      (required : Option (List String))

/-- Whether the node carries a `default` key. -/
def JSchema.hasDef : JSchema → Bool
  | .node _ _ _ _ h _ _ => h

/-- `prop.pop("default", None)`: remove the `default` key of this node
(children untouched). -/
def clearDefault : JSchema → JSchema
  | .node t p i d _ a r => .node t p i d false a r

theorem sizeOf_clearDefault (s : JSchema) : sizeOf (clearDefault s) = sizeOf s := by
  cases s
  simp [clearDefault]

mutual
/-- `doc_analyze._make_openai_strict`, split with its list/option
traversals into a mutual block: on an object node with a `properties` key
it sets `additionalProperties := false` and `required := all property
keys`, then for each property value pops its `default` key and recurses;
it always recurses into `items` when present and into every `$defs`
definition. -/
def make_openai_strict : JSchema → JSchema
  | .node typ props items defs hasDef addP req =>
      .node typ
        (if typ = "object" then stripProps props else props)
        (strictItems items)
        (strictDefs defs)
        hasDef
        (if typ = "object" ∧ props.isSome then some false else addP)
        (if typ = "object" ∧ props.isSome
          then some ((props.getD []).map Prod.fst) else req)
termination_by s => sizeOf s

def stripProps : Option (List (String × JSchema)) → Option (List (String × JSchema))
  | none => none
  | some ps => some (stripList ps)
termination_by o => sizeOf o

def stripList : List (String × JSchema) → List (String × JSchema)
  | [] => []
  | (k, v) :: rest => (k, make_openai_strict (clearDefault v)) :: stripList rest
termination_by l => sizeOf l
decreasing_by
  all_goals first
    | (simp only [sizeOf_clearDefault]; simp; try omega)
    | (simp; try omega)

def strictItems : Option JSchema → Option JSchema
  | none => none
  | some s => some (make_openai_strict s)
termination_by o => sizeOf o

def strictDefs : List (String × JSchema) → List (String × JSchema)
  | [] => []
  | (k, v) :: rest => (k, make_openai_strict v) :: strictDefs rest
termination_by l => sizeOf l
end

mutual
/-- The claim's "well-formed nested schema tree": every node carries a
`properties` map exactly when its `type` is `"object"` (an object node is
a node with a properties map), recursively through properties, items and
`$defs`. -/
def wellFormedB : JSchema → Bool
  | .node typ props items defs _ _ _ =>
      (decide (props.isSome ↔ typ = "object"))
      && wfProps props && wfItems items && wfPairs defs
def wfProps : Option (List (String × JSchema)) → Bool
  | none => true
  | some ps => wfPairs ps
def wfItems : Option JSchema → Bool
  | none => true
  | some s => wellFormedB s
def wfPairs : List (String × JSchema) → Bool
  | [] => true
  | (_, v) :: rest => wellFormedB v && wfPairs rest
end

mutual
/-- The claim's strict-mode property: every object node (anywhere —
through nested properties, list items and `$defs`) has
`additionalProperties = false` and a `required` list equal to the full key
set of its properties. -/
def strictOKB : JSchema → Bool
  | .node typ props items defs _ addP req =>
      (if typ = "object" ∧ props.isSome
        then decide (addP = some false)
          && decide (req = some ((props.getD []).map Prod.fst))
        else true)
      && okProps props && okItems items && okPairs defs
def okProps : Option (List (String × JSchema)) → Bool
  | none => true
  | some ps => okPairs ps
def okItems : Option JSchema → Bool
  | none => true
  | some s => strictOKB s
def okPairs : List (String × JSchema) → Bool
  | [] => true
  | (_, v) :: rest => strictOKB v && okPairs rest
end

mutual
/-- The claim's no-default property: no node anywhere in the tree
retains a `default` key. -/
def noDefaultB : JSchema → Bool
  | .node _ props items defs hasDef _ _ =>
      (!hasDef) && ndProps props && ndItems items && ndPairs defs
def ndProps : Option (List (String × JSchema)) → Bool
  | none => true
  | some ps => ndPairs ps
def ndItems : Option JSchema → Bool
  | none => true
  | some s => noDefaultB s
def ndPairs : List (String × JSchema) → Bool
  | [] => true
  | (_, v) :: rest => noDefaultB v && ndPairs rest
end

mutual
/-- The amended no-default property: no node sitting in property
position (a value of some object node's `properties` map) retains a
`default` key — a `default` attached to a non-property node (the root, an
`items` schema, a `$defs` definition itself) is outside this guarantee. -/
def propsNoDefaultB : JSchema → Bool
  | .node _ props items defs _ _ _ =>
      pndProps props && pndItems items && pndPairs defs
def pndProps : Option (List (String × JSchema)) → Bool
  | none => true
  | some ps => pndPropChildren ps
def pndPropChildren : List (String × JSchema) → Bool
  | [] => true
  | (_, v) :: rest => (!v.hasDef) && propsNoDefaultB v && pndPropChildren rest
def pndItems : Option JSchema → Bool
  | none => true
  | some s => propsNoDefaultB s
def pndPairs : List (String × JSchema) → Bool
  | [] => true
  | (_, v) :: rest => propsNoDefaultB v && pndPairs rest
end

theorem JSchema_hasDef_node (t : String) (p : Option (List (String × JSchema)))
    (i : Option JSchema) (d : List (String × JSchema)) (h : Bool)
    (a : Option Bool) (r : Option (List String)) :
    (JSchema.node t p i d h a r).hasDef = h := rfl

theorem make_openai_strict_hasDef (s : JSchema) : (make_openai_strict s).hasDef = s.hasDef := by
  cases s with
  | node t p i d h a r => simp [make_openai_strict, JSchema.hasDef]

theorem clearDefault_hasDef (s : JSchema) : (clearDefault s).hasDef = false := by
  cases s with
  | node t p i d h a r => rfl

theorem wellFormedB_clearDefault (s : JSchema) :
    wellFormedB (clearDefault s) = wellFormedB s := by
  cases s with
  | node t p i d h a r => simp [clearDefault, wellFormedB]

theorem stripList_keys (ps : List (String × JSchema)) :
    (stripList ps).map Prod.fst = ps.map Prod.fst := by
  induction ps with
  | nil => simp [stripList]
  | cons p rest ih =>
      obtain ⟨k, v⟩ := p
      simp [stripList, ih]

theorem wfPairs_mem {l : List (String × JSchema)} (h : wfPairs l = true) :
    ∀ p ∈ l, wellFormedB p.2 = true := by
  induction l with
  | nil => intro p hp; cases hp
  | cons q rest ih =>
      obtain ⟨k, v⟩ := q
      simp only [wfPairs, Bool.and_eq_true] at h
      intro p hp
      rcases List.mem_cons.mp hp with h0 | hmem
      · rw [h0]; exact h.1
      · exact ih h.2 p hmem

theorem okPairs_stripList (ps : List (String × JSchema))
    (h : ∀ p ∈ ps, strictOKB (make_openai_strict (clearDefault p.2)) = true) :
    okPairs (stripList ps) = true := by
  induction ps with
  | nil => simp [stripList, okPairs]
  | cons q rest ih =>
      obtain ⟨k, v⟩ := q
      simp only [stripList, okPairs, Bool.and_eq_true]
      exact ⟨h (k, v) (List.mem_cons_self _ _),
        ih (fun p hp => h p (List.mem_cons_of_mem _ hp))⟩

theorem okPairs_strictDefs (ds : List (String × JSchema))
    (h : ∀ p ∈ ds, strictOKB (make_openai_strict p.2) = true) :
    okPairs (strictDefs ds) = true := by
  induction ds with
  | nil => simp [strictDefs, okPairs]
  | cons q rest ih =>
      obtain ⟨k, v⟩ := q
      simp only [strictDefs, okPairs, Bool.and_eq_true]
      exact ⟨h (k, v) (List.mem_cons_self _ _),
        ih (fun p hp => h p (List.mem_cons_of_mem _ hp))⟩

theorem pndPropChildren_stripList (ps : List (String × JSchema))
    (h : ∀ p ∈ ps, propsNoDefaultB (make_openai_strict (clearDefault p.2)) = true) :
    pndPropChildren (stripList ps) = true := by
  induction ps with
  | nil => simp [stripList, pndPropChildren]
  | cons q rest ih =>
      obtain ⟨k, v⟩ := q
      simp only [stripList, pndPropChildren, Bool.and_eq_true]
      refine ⟨⟨?_, h (k, v) (List.mem_cons_self _ _)⟩,
        ih (fun p hp => h p (List.mem_cons_of_mem _ hp))⟩
      rw [make_openai_strict_hasDef, clearDefault_hasDef]
      rfl

theorem pndPairs_strictDefs (ds : List (String × JSchema))
    (h : ∀ p ∈ ds, propsNoDefaultB (make_openai_strict p.2) = true) :
    pndPairs (strictDefs ds) = true := by
  induction ds with
  | nil => simp [strictDefs, pndPairs]
  | cons q rest ih =>
      obtain ⟨k, v⟩ := q
      simp only [strictDefs, pndPairs, Bool.and_eq_true]
      exact ⟨h (k, v) (List.mem_cons_self _ _),
        ih (fun p hp => h p (List.mem_cons_of_mem _ hp))⟩

theorem sizeOf_lt_of_mem_pairs {k : String} {v : JSchema}
    {l : List (String × JSchema)} (h : (k, v) ∈ l) : sizeOf v < sizeOf l := by
  have h1 := List.sizeOf_lt_of_mem h
  have h2 : sizeOf (k, v) = 1 + sizeOf k + sizeOf v := rfl
  omega

/-- Strong induction on size: on well-formed input the transform
establishes the strict-mode property and strips the `default` key of
every property. -/
theorem make_openai_strict_sound : ∀ (n : Nat) (s : JSchema), sizeOf s ≤ n →
    wellFormedB s = true →
    strictOKB (make_openai_strict s) = true ∧ propsNoDefaultB (make_openai_strict s) = true := by
  intro n
  induction n with
  | zero =>
      intro s hs
      obtain ⟨t, p, i, d, h, a, r⟩ := s
      simp at hs
  | succ n ih =>
      intro s hs hwf
      obtain ⟨typ, props, items, defs, hasDef, addP, req⟩ := s
      simp only [wellFormedB, Bool.and_eq_true, decide_eq_true_eq] at hwf
      obtain ⟨⟨⟨hiff, hwfp⟩, hwfi⟩, hwfd⟩ := hwf
      have hnodesize : sizeOf (JSchema.node typ props items defs hasDef addP req)
          ≤ n + 1 := hs
      have hchild : ∀ c : JSchema,
          sizeOf c < sizeOf (JSchema.node typ props items defs hasDef addP req) →
          wellFormedB c = true →
          strictOKB (make_openai_strict c) = true ∧ propsNoDefaultB (make_openai_strict c) = true := by
        intro c hc hcwf
        exact ih c (by omega) hcwf
      have hpropslt : ∀ ps, props = some ps → ∀ (k : String) (v : JSchema),
          (k, v) ∈ ps →
          sizeOf v < sizeOf (JSchema.node typ props items defs hasDef addP req) := by
        intro ps hps k v hmem
        subst hps
        have h1 := sizeOf_lt_of_mem_pairs hmem
        simp
        omega
      have hdefslt : ∀ (k : String) (v : JSchema), (k, v) ∈ defs →
          sizeOf v < sizeOf (JSchema.node typ props items defs hasDef addP req) := by
        intro k v hmem
        have h1 := sizeOf_lt_of_mem_pairs hmem
        simp
        omega
      have hitemslt : ∀ i, items = some i →
          sizeOf i < sizeOf (JSchema.node typ props items defs hasDef addP req) := by
        intro i hi
        subst hi
        simp
        omega
      have hpropsP : ∀ ps, props = some ps → ∀ p ∈ ps,
          strictOKB (make_openai_strict (clearDefault p.2)) = true
          ∧ propsNoDefaultB (make_openai_strict (clearDefault p.2)) = true := by
        intro ps hps p hp
        obtain ⟨k, v⟩ := p
        have hwfv : wellFormedB v = true := by
          have := wfPairs_mem (by rw [hps] at hwfp; exact hwfp) (k, v) hp
          exact this
        refine hchild (clearDefault v) ?_ ?_
        · rw [sizeOf_clearDefault]
          exact hpropslt ps hps k v hp
        · rw [wellFormedB_clearDefault]
          exact hwfv
      have hdefsP : ∀ p ∈ defs,
          strictOKB (make_openai_strict p.2) = true
          ∧ propsNoDefaultB (make_openai_strict p.2) = true := by
        intro p hp
        obtain ⟨k, v⟩ := p
        exact hchild v (hdefslt k v hp) (wfPairs_mem hwfd (k, v) hp)
      have hitemsP : ∀ i, items = some i →
          strictOKB (make_openai_strict i) = true ∧ propsNoDefaultB (make_openai_strict i) = true := by
        intro i hi
        refine hchild i (hitemslt i hi) ?_
        rw [hi] at hwfi
        exact hwfi
      have hokItems : okItems (strictItems items) = true := by
        cases items with
        | none => simp [strictItems, okItems]
        | some i => simp [strictItems, okItems, (hitemsP i rfl).1]
      have hpndItems : pndItems (strictItems items) = true := by
        cases items with
        | none => simp [strictItems, pndItems]
        | some i => simp [strictItems, pndItems, (hitemsP i rfl).2]
      have hokDefs : okPairs (strictDefs defs) = true :=
        okPairs_strictDefs defs (fun p hp => (hdefsP p hp).1)
      have hpndDefs : pndPairs (strictDefs defs) = true :=
        pndPairs_strictDefs defs (fun p hp => (hdefsP p hp).2)
      by_cases hobj : typ = "object"
      · cases props with
        | some ps =>
            have hout : make_openai_strict (JSchema.node typ (some ps) items defs hasDef addP req)
                = JSchema.node typ (some (stripList ps)) (strictItems items)
                    (strictDefs defs) hasDef (some false) (some (ps.map Prod.fst)) := by
              simp [make_openai_strict, stripProps, hobj]
            rw [hout]
            constructor
            · simp only [strictOKB, Bool.and_eq_true]
              refine ⟨⟨⟨?_, ?_⟩, ?_⟩, hokDefs⟩
              · simp [hobj, stripList_keys]
              · simp only [okProps]
                exact okPairs_stripList ps (fun p hp => (hpropsP ps rfl p hp).1)
              · exact hokItems
            · simp only [propsNoDefaultB, Bool.and_eq_true]
              refine ⟨⟨?_, ?_⟩, hpndDefs⟩
              · simp only [pndProps]
                exact pndPropChildren_stripList ps (fun p hp => (hpropsP ps rfl p hp).2)
              · exact hpndItems
        | none =>
            have hout : make_openai_strict (JSchema.node typ none items defs hasDef addP req)
                = JSchema.node typ none (strictItems items)
                    (strictDefs defs) hasDef addP req := by
              simp [make_openai_strict, stripProps, hobj]
            rw [hout]
            constructor
            · simp only [strictOKB, Bool.and_eq_true]
              refine ⟨⟨⟨?_, ?_⟩, ?_⟩, hokDefs⟩
              · simp
              · simp [okProps]
              · exact hokItems
            · simp only [propsNoDefaultB, Bool.and_eq_true]
              exact ⟨⟨by simp [pndProps], hpndItems⟩, hpndDefs⟩
      · have hnone : props = none := by
          cases props with
          | none => rfl
          | some ps => exact absurd (hiff.mp rfl) hobj
        subst hnone
        have hout : make_openai_strict (JSchema.node typ none items defs hasDef addP req)
            = JSchema.node typ none (strictItems items)
                (strictDefs defs) hasDef addP req := by
          simp [make_openai_strict, stripProps, hobj]
        rw [hout]
        constructor
        · simp only [strictOKB, Bool.and_eq_true]
          refine ⟨⟨⟨?_, ?_⟩, ?_⟩, hokDefs⟩
          · simp [hobj]
          · simp [okProps]
          · exact hokItems
        · simp only [propsNoDefaultB, Bool.and_eq_true]
          exact ⟨⟨by simp [pndProps], hpndItems⟩, hpndDefs⟩

/-- C5 (amended): for every well-formed nested schema tree, the transform
yields a tree in which every object node — including nodes reached through
nested properties, list items and `$defs` definitions — has
`additionalProperties = false` and a `required` list equal to the full key
set of that node's properties, and no node in property position retains a
`default` key.  (A `default` key attached to a non-property node, such as
an `items` schema itself, is NOT removed; see the counterexample.) -/
theorem schema_strict_transform (s : JSchema) (hwf : wellFormedB s = true) :
    strictOKB (make_openai_strict s) = true
    ∧ propsNoDefaultB (make_openai_strict s) = true :=
  make_openai_strict_sound (sizeOf s) s (le_refl _) hwf

/-- An object schema whose single property is an array whose `items`
schema itself carries a `default` key. -/
def itemsDefaultSchema : JSchema :=
  .node "object"
    (some [("a", .node "array" none
        (some (.node "string" none none [] true none none)) [] false none none)])
    none [] false none none

/-- C5 counterexample to the original claim: the transform never pops the
`default` key of a node that is not in property position — here the
`items` schema of an array-typed property keeps its `default`, so the
result does retain a `default` key on a node reached through list items. -/
theorem schema_default_on_items_counterexample :
    wellFormedB itemsDefaultSchema = true
    ∧ noDefaultB (make_openai_strict itemsDefaultSchema) = false := by
  constructor
  · simp [itemsDefaultSchema, wellFormedB, wfProps, wfItems, wfPairs]
  · simp [itemsDefaultSchema, make_openai_strict, stripProps, stripList,
      strictItems, strictDefs, clearDefault, noDefaultB, ndProps, ndItems,
      ndPairs]

/-- A nested object schema (object property, defaulted properties, array
items, a `$defs` definition) for instantiating C5. -/
def nestedObjectSchema : JSchema :=
  .node "object"
    (some [("title", .node "string" none none [] true none none),
           ("sensitivity", .node "object"
              (some [("has_ssn", .node "boolean" none none [] true none none)])
              none [] false none none),
           ("tags", .node "array" none
              (some (.node "string" none none [] false none none)) [] true none none)])
    none
    [("Sensitivity", .node "object"
        (some [("has_medical", .node "boolean" none none [] true none none)])
        none [] false none none)]
    false none none

/-- Witness for `schema_strict_transform` at a concrete nested schema. -/
theorem schema_strict_transform_witness :
    wellFormedB nestedObjectSchema = true
    ∧ strictOKB (make_openai_strict nestedObjectSchema) = true
    ∧ propsNoDefaultB (make_openai_strict nestedObjectSchema) = true := by
  have hwf : wellFormedB nestedObjectSchema = true := by
    simp [nestedObjectSchema, wellFormedB, wfProps, wfItems, wfPairs]
  exact ⟨hwf, (schema_strict_transform nestedObjectSchema hwf).1,
    (schema_strict_transform nestedObjectSchema hwf).2⟩

end LivingArchive
